import Mathlib

/-!
# cppstl::array and its iterator family

A shallow embedding of `cpp_STL/containers/cppstl_array.cpp`.

* `cppstl.array T ARRAY_SIZE` is the inline storage `value_type data_ptr_[ARRAY_SIZE]`:
  one value of `T` for each index below `ARRAY_SIZE`.
* Reading a slot outside `[0, ARRAY_SIZE)` is undefined behaviour in the source; the
  embedding returns `none` there.
* `size_type` counters only ever range over `[0, ARRAY_SIZE]`, and `ARRAY_SIZE` is itself a
  `size_type`, so they never wrap; they are natural numbers here.
* An iterator holds one pointer `ptr_` into the storage. It is embedded as the integer
  offset of that pointer from `data_ptr_` (the storage position); one-before-the-first
  is position `-1`.
-/

set_option autoImplicit false

namespace cppstl

/-- The container `template <typename T, const cppstl::size_t ARRAY_SIZE> class array`:
the member `value_type data_ptr_[ARRAY_SIZE]`. -/
structure array (T : Type) (ARRAY_SIZE : Nat) where
  data_ptr_ : Fin ARRAY_SIZE → T

/-- The class `iterator_impl<ValueType, PointType, ReferenceType, IS_REVERSE>`: the member
`pointer ptr_`, as a storage position. The first three template parameters only fix the
static types of what is pointed to (`iterator` and `const_iterator` differ in nothing
else), so the embedding keeps `IS_REVERSE` alone. -/
structure iterator_impl (IS_REVERSE : Bool) where
  ptr_ : Int
deriving DecidableEq, Repr

namespace array

variable {T : Type} {ARRAY_SIZE : Nat}

/-- Source: `size_type size() const noexcept { return ARRAY_SIZE; }`. -/
def size (_a : array T ARRAY_SIZE) : Nat := ARRAY_SIZE

/-- Source: `operator[] (size_type p) { return data_ptr_[p]; }`. No bounds check in the
source: an index `p >= ARRAY_SIZE` is undefined behaviour, rendered as `none`. -/
def operator_index (a : array T ARRAY_SIZE) (p : Nat) : Option T :=
  if h : p < ARRAY_SIZE then some (a.data_ptr_ ⟨p, h⟩) else none

/-- The slots of an array in index order, `data_ptr_[0], ..., data_ptr_[ARRAY_SIZE - 1]`. -/
def slots (a : array T ARRAY_SIZE) : List T := List.ofFn a.data_ptr_

/-- The storage right after the member initialiser `data_ptr_{}`: every slot
value-initialised, i.e. holding the default value of `T`. -/
def value_initialized [Inhabited T] (ARRAY_SIZE : Nat) : Fin ARRAY_SIZE → T :=
  fun _ => default

/-- The body of the initializer-list constructor:
```
size_type p = 0;
for (const auto& value : initializer) {
    if (p < ARRAY_SIZE) { data_ptr_[p ++] = value; }
    else { return; }
}
```
The first argument is what is left of `initializer`, then the counter `p` and the
storage. -/
def initializer_loop (ARRAY_SIZE : Nat) :
    List T → Nat → (Fin ARRAY_SIZE → T) → (Fin ARRAY_SIZE → T)
  | [], _, data => data
  | value :: rest, p, data =>
    if h : p < ARRAY_SIZE then
      initializer_loop ARRAY_SIZE rest (p + 1) (Function.update data ⟨p, h⟩ value)
    else data

/-- Source: `constexpr array(const std::initializer_list<T>& initializer) noexcept : data_ptr_{}`. -/
def from_initializer_list [Inhabited T] (ARRAY_SIZE : Nat) (initializer : List T) :
    array T ARRAY_SIZE :=
  ⟨initializer_loop ARRAY_SIZE initializer 0 (value_initialized ARRAY_SIZE)⟩

/-- The loop of `operator ==`, entered with counter `i`:
```
for (decltype(lhs.size()) i = 0; i < lhs.size(); ++i) {
    if (lhs[i] != rhs[i]) { return false; }
}
return true;
```
The source spells the bound `lhs,size()`; it is read as the member call `lhs.size()`.
The first argument bounds the number of iterations still allowed; `operator_eq` passes
`lhs.size()`, which the loop never exceeds. The element comparison `!=` of `T` is the
negation of equality on `T`. -/
def eq_loop [DecidableEq T] (lhs rhs : array T ARRAY_SIZE) : Nat → Nat → Bool
  | 0, _ => true
  | fuel + 1, i =>
    if i < lhs.size then
      if lhs.operator_index i != rhs.operator_index i then false
      else eq_loop lhs rhs fuel (i + 1)
    else true

/-- Source: `inline bool operator ==(const cppstl::array<T, size>& lhs, const cppstl::array<T, size>& rhs)`. -/
def operator_eq [DecidableEq T] (lhs rhs : array T ARRAY_SIZE) : Bool :=
  if lhs.size != rhs.size then false
  else eq_loop lhs rhs lhs.size 0

/-- Source: `iterator begin() { return iterator(data_ptr_); }`. -/
def begin (_a : array T ARRAY_SIZE) : iterator_impl false := ⟨0⟩

/-- Source: `iterator end() { return iterator(data_ptr_ + ARRAY_SIZE); }`
(`end` is a keyword of Lean, hence the underscore). -/
def end_ (_a : array T ARRAY_SIZE) : iterator_impl false := ⟨(ARRAY_SIZE : Int)⟩

/-- Source: `const_iterator cbegin() { return const_iterator(data_ptr_); }`. -/
def cbegin (_a : array T ARRAY_SIZE) : iterator_impl false := ⟨0⟩

/-- Source: `const_iterator cend() { return const_iterator(data_ptr_ - 1); }`. -/
def cend (_a : array T ARRAY_SIZE) : iterator_impl false := ⟨-1⟩

end array

namespace iterator_impl

variable {T : Type} {ARRAY_SIZE : Nat} {IS_REVERSE : Bool}

/-- Source: `reference operator*() const { return *ptr_; }`, reading the storage of the
array the iterator points into. Dereferencing a position outside `[0, ARRAY_SIZE)` is
undefined behaviour, rendered as `none`. -/
def operator_deref (self : iterator_impl IS_REVERSE) (a : array T ARRAY_SIZE) : Option T :=
  if 0 ≤ self.ptr_ then a.operator_index self.ptr_.toNat else none

/-- Source: `iterator_impl& operator++()`:
`if constexpr (IS_REVERSE) { --ptr_; } else { ++ptr_; } return *this;`.
A mutating member is a function to the pair (value returned, receiver afterwards). -/
def operator_preinc (self : iterator_impl IS_REVERSE) :
    iterator_impl IS_REVERSE × iterator_impl IS_REVERSE :=
  let this : iterator_impl IS_REVERSE :=
    if IS_REVERSE then ⟨self.ptr_ - 1⟩ else ⟨self.ptr_ + 1⟩
  (this, this)

/-- Source: `iterator_impl& operator--()`:
`if constexpr (IS_REVERSE) { ++ptr_; } else { --ptr_; } return *this;`. -/
def operator_predec (self : iterator_impl IS_REVERSE) :
    iterator_impl IS_REVERSE × iterator_impl IS_REVERSE :=
  let this : iterator_impl IS_REVERSE :=
    if IS_REVERSE then ⟨self.ptr_ + 1⟩ else ⟨self.ptr_ - 1⟩
  (this, this)

/-- Source: `iterator_impl operator++(int)`:
```
iterator_impl new_iter = *this;
if constexpr (IS_REVERSE) { --(*this); } else { ++(*this); }
return new_iter;
```
where `--(*this)` and `++(*this)` are the member operators above. -/
def operator_postinc (self : iterator_impl IS_REVERSE) :
    iterator_impl IS_REVERSE × iterator_impl IS_REVERSE :=
  let new_iter := self
  let this := if IS_REVERSE then (operator_predec self).2 else (operator_preinc self).2
  (new_iter, this)

/-- Source: `iterator_impl operator--(int)`:
```
iterator_impl new_iter = *this;
if constexpr (IS_REVERSE) { ++(*this); } else { --(*this); }
return new_iter;
```
-/
def operator_postdec (self : iterator_impl IS_REVERSE) :
    iterator_impl IS_REVERSE × iterator_impl IS_REVERSE :=
  let new_iter := self
  let this := if IS_REVERSE then (operator_preinc self).2 else (operator_predec self).2
  (new_iter, this)

/-- Source: `iterator_impl operator+(difference_type offset) const`:
`if constexpr (IS_REVERSE) return iterator_impl(ptr_ - offset); else return iterator_impl(ptr_ + offset);`.
A `const` member: it writes nothing to the receiver and is a plain function of it. -/
def operator_plus (self : iterator_impl IS_REVERSE) (offset : Int) : iterator_impl IS_REVERSE :=
  if IS_REVERSE then ⟨self.ptr_ - offset⟩ else ⟨self.ptr_ + offset⟩

/-- Source: `iterator_impl operator~(difference_type offset) const`:
`if constexpr (IS_REVERSE) return iterator_impl(ptr_ + offset); else return iterator_impl(ptr_ - offset);`. -/
def operator_tilde_offset (self : iterator_impl IS_REVERSE) (offset : Int) :
    iterator_impl IS_REVERSE :=
  if IS_REVERSE then ⟨self.ptr_ + offset⟩ else ⟨self.ptr_ - offset⟩

/-- Source: `difference_type operator~(const this_iter_type& other) const { return ptr_ - other.ptr_; }`,
the difference of two iterators. -/
def operator_tilde (self other : iterator_impl IS_REVERSE) : Int :=
  self.ptr_ - other.ptr_

/-- Source: `bool operator==(const this_iter_type& other) const { return ptr_ == other.ptr_; }`. -/
def operator_eq (self other : iterator_impl IS_REVERSE) : Bool :=
  self.ptr_ == other.ptr_

/-- Source: `bool operator!=(const this_iter_type& other) const { return !(*this == other); }`. -/
def operator_ne (self other : iterator_impl IS_REVERSE) : Bool :=
  !(operator_eq self other)

/-- The receiver after `n` successive pre-increments `++it`. -/
def preinc_times (n : Nat) (self : iterator_impl IS_REVERSE) : iterator_impl IS_REVERSE :=
  Nat.iterate (fun it => (operator_preinc it).2) n self

/-- The client loop `for (it = first; it != last; ++it) visit(*it);` over the storage of
`a`, returning the values visited in order. The first argument bounds the number of loop
iterations; the result is `none` when that bound is exhausted before `it` compares equal
to `last`, or when the loop dereferences a position outside the storage. -/
def traverse (a : array T ARRAY_SIZE) :
    Nat → iterator_impl IS_REVERSE → iterator_impl IS_REVERSE → Option (List T)
  | 0, it, last => if operator_ne it last then none else some []
  | fuel + 1, it, last =>
    if operator_ne it last then
      (operator_deref it a).bind fun value =>
        (traverse a fuel (operator_preinc it).2 last).map fun rest => value :: rest
    else some []

/-- Source: `bool operator <(const this_iter_type& other) const { return ptr_ < other.ptr_; }`. -/
def operator_lt (self other : iterator_impl IS_REVERSE) : Bool :=
  decide (self.ptr_ < other.ptr_)

/-- Source: `bool operator <=(const this_iter_type& other) const { return ptr_ <= other.ptr_; }`. -/
def operator_le (self other : iterator_impl IS_REVERSE) : Bool :=
  decide (self.ptr_ ≤ other.ptr_)

/-- Source: `bool operator >(const this_iter_type& other) const { return !(*this <= other); }`. -/
def operator_gt (self other : iterator_impl IS_REVERSE) : Bool :=
  !(operator_le self other)

/-- Source: `bool operator >=(const this_iter_type& other) const { return !(*this < other); }`. -/
def operator_ge (self other : iterator_impl IS_REVERSE) : Bool :=
  !(operator_lt self other)

end iterator_impl

namespace array

variable {T : Type} {ARRAY_SIZE : Nat}

/-- Source: `inline bool operator != (lhs, rhs) { return !(lhs == rhs); }`. -/
def operator_ne [DecidableEq T] (lhs rhs : array T ARRAY_SIZE) : Bool :=
  !(operator_eq lhs rhs)

/-- The assignment `data_ptr_[p] = value` on a storage. Writing to an index
`p >= ARRAY_SIZE` is undefined behaviour, rendered as `none`. -/
def store (data : Fin ARRAY_SIZE → T) (p : Nat) (value : T) : Option (Fin ARRAY_SIZE → T) :=
  if h : p < ARRAY_SIZE then some (Function.update data ⟨p, h⟩ value) else none

/-- The assignment `a[p] = value` through the reference that
`reference operator[] (size_type p) { return data_ptr_[p]; }` returns. -/
def assign_index (a : array T ARRAY_SIZE) (p : Nat) (value : T) : Option (array T ARRAY_SIZE) :=
  (store a.data_ptr_ p value).map array.mk

/-- The loop of `fill`, entered with counter `i`:
`for (size_type i = 0; i < ARRAY_SIZE; ++i) { data_ptr_[i] = value; }`.
The first argument bounds the number of iterations still allowed; `fill` passes
`ARRAY_SIZE`, which the loop never exceeds. -/
def fill_loop (value : T) : Nat → Nat → (Fin ARRAY_SIZE → T) → (Fin ARRAY_SIZE → T)
  | 0, _, data => data
  | fuel + 1, i, data =>
    if h : i < ARRAY_SIZE then
      fill_loop value fuel (i + 1) (Function.update data ⟨i, h⟩ value)
    else data

/-- Source: `constexpr void fill(const T& value) noexcept`; the array afterwards. -/
def fill (a : array T ARRAY_SIZE) (value : T) : array T ARRAY_SIZE :=
  ⟨fill_loop value ARRAY_SIZE 0 a.data_ptr_⟩

/-- The loop of the default constructor, entered with counter `i`:
`for (size_type i = 0; i < ARRAY_SIZE; ++i) { new(&data_ptr_[i]) T(); }`,
each placement-new leaving the default value of `T` in the slot. -/
def default_loop [Inhabited T] : Nat → Nat → (Fin ARRAY_SIZE → T) → (Fin ARRAY_SIZE → T)
  | 0, _, data => data
  | fuel + 1, i, data =>
    if h : i < ARRAY_SIZE then
      default_loop fuel (i + 1) (Function.update data ⟨i, h⟩ default)
    else data

/-- Source: `constexpr array() noexcept: data_ptr_()` with the body
`if constexpr (!std::is_trivally_copyable<T>::value) { for ... }`. The type trait of `T`
(spelled `is_trivally_copyable` in the source) is a parameter. -/
def default_constructor [Inhabited T] (ARRAY_SIZE : Nat) (is_trivially_copyable : Bool) :
    array T ARRAY_SIZE :=
  let data : Fin ARRAY_SIZE → T := value_initialized ARRAY_SIZE
  if !is_trivially_copyable then ⟨default_loop ARRAY_SIZE 0 data⟩ else ⟨data⟩

/-- The loop of the copy constructor, `for (const auto& value : other) { data_ptr_[i ++] = value; }`,
spelled out as the range-for it is: `it` runs from `other.begin()` until it compares
equal to `last = other.end()`, each step reads `*it` and stores it at `data_ptr_[i]`.
The first argument bounds the number of iterations; the result is `none` when the bound
is exhausted or a read or write falls outside a storage. -/
def copy_loop (other : array T ARRAY_SIZE) :
    Nat → iterator_impl false → iterator_impl false → Nat → (Fin ARRAY_SIZE → T) →
      Option (Fin ARRAY_SIZE → T)
  | 0, it, last, _, data => if iterator_impl.operator_ne it last then none else some data
  | fuel + 1, it, last, i, data =>
    if iterator_impl.operator_ne it last then
      match iterator_impl.operator_deref it other with
      | none => none
      | some value =>
        match store data i value with
        | none => none
        | some data1 =>
          copy_loop other fuel (iterator_impl.operator_preinc it).2 last (i + 1) data1
    else some data

/-- Source: `array(const this_array_type& other)`. The constructor has no member
initialiser: `storage` is whatever default-initialisation left in `data_ptr_`. The walk
from `begin()` to `end()` is given the `ARRAY_SIZE` iterations it takes. -/
def copy_constructor (other : array T ARRAY_SIZE) (storage : Fin ARRAY_SIZE → T) :
    Option (array T ARRAY_SIZE) :=
  (copy_loop other ARRAY_SIZE other.begin other.end_ 0 storage).map array.mk

/-- The loop of the move constructor,
`for (auto& value : other) { data_ptr_[i ++] = cppstl::move(value); }`, on the pair
(storage of `other`, storage under construction). `cppstl::move` is not defined in this
file of the source: moving out of a slot hands over the value it holds and leaves the
slot in the moved-from state of `T`, given by the parameter `moved_from`. -/
def move_loop (moved_from : T → T) :
    Nat → iterator_impl false → iterator_impl false → Nat →
      (Fin ARRAY_SIZE → T) → (Fin ARRAY_SIZE → T) →
      Option ((Fin ARRAY_SIZE → T) × (Fin ARRAY_SIZE → T))
  | 0, it, last, _, source, data =>
    if iterator_impl.operator_ne it last then none else some (source, data)
  | fuel + 1, it, last, i, source, data =>
    if iterator_impl.operator_ne it last then
      match iterator_impl.operator_deref it (array.mk source) with
      | none => none
      | some value =>
        match store data i value, store source it.ptr_.toNat (moved_from value) with
        | some data1, some source1 =>
          move_loop moved_from fuel (iterator_impl.operator_preinc it).2 last (i + 1)
            source1 data1
        | _, _ => none
    else some (source, data)

/-- Source: `array(this_array_type&& other)`; the result is the pair (array constructed,
`other` afterwards). -/
def move_constructor (moved_from : T → T) (other : array T ARRAY_SIZE)
    (storage : Fin ARRAY_SIZE → T) : Option (array T ARRAY_SIZE × array T ARRAY_SIZE) :=
  (move_loop moved_from ARRAY_SIZE other.begin other.end_ 0 other.data_ptr_ storage).map
    fun r => (array.mk r.2, array.mk r.1)

/-- Modelled from the spec: the reverse accessors, which the source declares the
iterator type for (`reverse_iterator`) but does not define. The spec has them "return
positions such that incrementing walks from the last element to before the first": the
first one is on the last slot. -/
def rbegin (_a : array T ARRAY_SIZE) : iterator_impl true := ⟨(ARRAY_SIZE : Int) - 1⟩

/-- Modelled from the spec: the reverse accessor for the end of the reverse walk, the
position before the first slot. -/
def rend (_a : array T ARRAY_SIZE) : iterator_impl true := ⟨-1⟩

end array

/-! ## Allocator

A shallow embedding of `cpp_STL/allocators/cppstl_allocator.cpp`. `size_type` is
`cppstl::size_t`, an unsigned integer type declared outside these files: its width `w`
in bits and `sizeof(T)` are parameters, and arithmetic on it is taken modulo `2 ^ w`. -/

namespace Allocator

/-- The value `std::numeric_limits<size_type>::max()`. -/
def size_type_max (w : Nat) : Nat := 2 ^ w - 1

/-- Source: `size_type max_size() const noexcept { return std::numeric_limits<size_type>::max() / sizeof(value_type); }`. -/
def max_size (w sizeof_T : Nat) : Nat := size_type_max w / sizeof_T

/-- The argument `size * sizeof(T)` that `allocate` passes to `::operator new`: a
product of two `size_type` values. -/
def allocate_bytes (w sizeof_T size : Nat) : Nat := (size * sizeof_T) % 2 ^ w

/-- Source: `return static_cast<pointer>(::operator new(size * sizeof(T)));`, with the
memory system `::operator new` as a parameter (`none` when it throws). The hint is not
used by the source. -/
def allocate {pointer : Type} (operator_new : Nat → Option pointer) (w sizeof_T size : Nat) :
    Option pointer :=
  operator_new (allocate_bytes w sizeof_T size)

end Allocator

/-! ## Construction and equality of arrays -/

namespace array

variable {T : Type} {ARRAY_SIZE : Nat}

theorem operator_index_of_lt (a : array T ARRAY_SIZE) (i : Fin ARRAY_SIZE) :
    a.operator_index i.val = some (a.data_ptr_ i) := by
  simp [operator_index]

theorem operator_index_of_ge (a : array T ARRAY_SIZE) (p : Nat) (h : ARRAY_SIZE ≤ p) :
    a.operator_index p = none := by
  simp [operator_index, Nat.not_lt.mpr h]

/-- What the comparison loop computes when it is entered at `i` with exactly the
iterations left that reach `ARRAY_SIZE`. -/
theorem eq_loop_iff [DecidableEq T] (lhs rhs : array T ARRAY_SIZE) :
    ∀ (fuel i : Nat), i + fuel = ARRAY_SIZE →
      (eq_loop lhs rhs fuel i = true ↔
        ∀ j : Fin ARRAY_SIZE, i ≤ j.val → lhs.data_ptr_ j = rhs.data_ptr_ j) := by
  intro fuel
  induction fuel with
  | zero =>
    intro i hi
    simp only [eq_loop, true_iff]
    intro j hj
    exact absurd j.isLt (by omega)
  | succ fuel ih =>
    intro i hi
    have hlt : i < ARRAY_SIZE := by omega
    have hl := operator_index_of_lt lhs ⟨i, hlt⟩
    have hr := operator_index_of_lt rhs ⟨i, hlt⟩
    simp only at hl hr
    by_cases hne : lhs.data_ptr_ ⟨i, hlt⟩ = rhs.data_ptr_ ⟨i, hlt⟩
    · have hstep : eq_loop lhs rhs (fuel + 1) i = eq_loop lhs rhs fuel (i + 1) := by
        simp [eq_loop, size, hlt, hl, hr, hne]
      rw [hstep, ih (i + 1) (by omega)]
      constructor
      · intro h j hj
        rcases Nat.eq_or_lt_of_le hj with heq | hlt2
        · have : j = ⟨i, hlt⟩ := Fin.ext heq.symm
          rw [this]; exact hne
        · exact h j hlt2
      · intro h j hj
        exact h j (by omega)
    · have hstep : eq_loop lhs rhs (fuel + 1) i = false := by
        simp [eq_loop, size, hlt, hl, hr, hne]
      rw [hstep]
      constructor
      · intro h; cases h
      · intro h; exact absurd (h ⟨i, hlt⟩ (Nat.le_refl i)) hne

/-- Slot `i` of the storage after the initializer loop was entered with counter `p`:
the value `i - p` places into what was left of the sequence when there is one, and the
old content of the slot otherwise. -/
theorem initializer_loop_apply (s : List T) :
    ∀ (p : Nat) (data : Fin ARRAY_SIZE → T) (i : Fin ARRAY_SIZE),
      initializer_loop ARRAY_SIZE s p data i =
        if p ≤ i.val then (s[i.val - p]?).getD (data i) else data i := by
  induction s with
  | nil => intro p data i; simp [initializer_loop]
  | cons v rest ih =>
    intro p data i
    unfold initializer_loop
    by_cases hp : p < ARRAY_SIZE
    · rw [dif_pos hp, ih]
      by_cases h1 : p + 1 ≤ i.val
      · have hne : i ≠ ⟨p, hp⟩ := by
          intro h; rw [h] at h1; simp at h1
        have hidx : i.val - p = (i.val - (p + 1)) + 1 := by omega
        rw [if_pos h1, if_pos (by omega), Function.update_noteq hne, hidx,
          List.getElem?_cons_succ]
      · rw [if_neg h1]
        by_cases h2 : p ≤ i.val
        · have hi : i = ⟨p, hp⟩ := Fin.ext (by simp; omega)
          rw [if_pos h2, hi]
          simp
        · have hne : i ≠ ⟨p, hp⟩ := by
            intro h; rw [h] at h2; simp at h2
          rw [if_neg h2, Function.update_noteq hne]
    · rw [dif_neg hp, if_neg (by have := i.isLt; omega)]

theorem slots_getElem? (a : array T ARRAY_SIZE) (i : Nat) :
    a.slots[i]? = a.operator_index i := by
  rw [slots, List.getElem?_ofFn]; rfl

theorem slots_length (a : array T ARRAY_SIZE) : a.slots.length = ARRAY_SIZE := by
  rw [slots, List.length_ofFn]

/-- C1: for two arrays of the same element type and size, `operator ==` returns true
exactly when the two arrays hold equal values in every slot `i` of `[0, ARRAY_SIZE)`. -/
theorem operator_eq_iff_slots_eq [DecidableEq T] (a b : array T ARRAY_SIZE) :
    operator_eq a b = true ↔ ∀ i : Fin ARRAY_SIZE, a.data_ptr_ i = b.data_ptr_ i := by
  have hloop := eq_loop_iff a b ARRAY_SIZE 0 (Nat.zero_add _)
  have hdef : operator_eq a b = eq_loop a b ARRAY_SIZE 0 := by
    simp [operator_eq, size]
  rw [hdef, hloop]
  constructor
  · intro h j; exact h j (Nat.zero_le _)
  · intro h j _; exact h j

/-- C2: built from an initializer sequence `s` longer than `ARRAY_SIZE`, the array holds
exactly the first `ARRAY_SIZE` values of `s` in order, slot `i` holding `s[i]`; the
values past them are dropped. -/
theorem from_initializer_list_longer [Inhabited T] (s : List T)
    (hlen : ARRAY_SIZE < s.length) :
    (from_initializer_list ARRAY_SIZE s).slots = s.take ARRAY_SIZE ∧
      ∀ i : Fin ARRAY_SIZE,
        s[i.val]? = some ((from_initializer_list ARRAY_SIZE s).data_ptr_ i) := by
  have hslot : ∀ i : Fin ARRAY_SIZE,
      s[i.val]? = some ((from_initializer_list ARRAY_SIZE s).data_ptr_ i) := by
    intro i
    have hi : i.val < s.length := Nat.lt_trans i.isLt hlen
    simp [from_initializer_list, initializer_loop_apply, List.getElem?_eq_getElem hi]
  refine ⟨?_, hslot⟩
  apply List.ext_getElem?
  intro n
  rw [slots_getElem?]
  by_cases hn : n < ARRAY_SIZE
  · rw [List.getElem?_take_of_lt hn, hslot ⟨n, hn⟩]
    exact operator_index_of_lt _ ⟨n, hn⟩
  · rw [operator_index_of_ge _ _ (Nat.le_of_not_lt hn),
      List.getElem?_take_eq_none (Nat.le_of_not_lt hn)]

/-- The example of C2: size 3 from the sequence 1, 2, 3, 4 gives 1, 2, 3. -/
theorem from_initializer_list_longer_witness :
    (3 < [1, 2, 3, 4].length) ∧
    ((from_initializer_list 3 ([1, 2, 3, 4] : List Int)).slots = [1, 2, 3] ∧
      ∀ i : Fin 3, ([1, 2, 3, 4] : List Int)[i.val]? =
        some ((from_initializer_list 3 ([1, 2, 3, 4] : List Int)).data_ptr_ i)) :=
  ⟨by decide, @from_initializer_list_longer Int 3 _ [1, 2, 3, 4] (by decide)⟩

/-- C3: built from an initializer sequence `s` of length at most `ARRAY_SIZE`, the array
holds `s[i]` in every slot `i` below the length of `s` and the default value of `T` in
every slot from there up to `ARRAY_SIZE`. -/
theorem from_initializer_list_shorter [Inhabited T] (s : List T)
    (hlen : s.length ≤ ARRAY_SIZE) :
    (∀ i : Fin ARRAY_SIZE, i.val < s.length →
        s[i.val]? = some ((from_initializer_list ARRAY_SIZE s).data_ptr_ i)) ∧
      (∀ i : Fin ARRAY_SIZE, s.length ≤ i.val →
        (from_initializer_list ARRAY_SIZE s).data_ptr_ i = default) ∧
      (from_initializer_list ARRAY_SIZE s).slots =
        s ++ List.replicate (ARRAY_SIZE - s.length) default := by
  have hlow : ∀ i : Fin ARRAY_SIZE, i.val < s.length →
      s[i.val]? = some ((from_initializer_list ARRAY_SIZE s).data_ptr_ i) := by
    intro i hi
    simp [from_initializer_list, initializer_loop_apply, List.getElem?_eq_getElem hi]
  have hhigh : ∀ i : Fin ARRAY_SIZE, s.length ≤ i.val →
      (from_initializer_list ARRAY_SIZE s).data_ptr_ i = default := by
    intro i hi
    simp [from_initializer_list, initializer_loop_apply, List.getElem?_eq_none hi,
      value_initialized]
  refine ⟨hlow, hhigh, ?_⟩
  apply List.ext_getElem?
  intro n
  rw [slots_getElem?]
  by_cases hn : n < ARRAY_SIZE
  · rw [operator_index_of_lt _ ⟨n, hn⟩]
    by_cases hs : n < s.length
    · rw [List.getElem?_append_left hs]
      exact (hlow ⟨n, hn⟩ hs).symm
    · have hs2 : s.length ≤ n := Nat.le_of_not_lt hs
      rw [List.getElem?_append_right hs2, hhigh ⟨n, hn⟩ hs2,
        List.getElem?_replicate_of_lt (by omega)]
  · have hn2 : ARRAY_SIZE ≤ n := Nat.le_of_not_lt hn
    rw [operator_index_of_ge _ _ hn2]
    symm
    apply List.getElem?_eq_none
    simp only [List.length_append, List.length_replicate]
    omega

/-- The example of C3: size 5 from the sequence 1, 2, 3 gives 1, 2, 3, 0, 0, where 0 is
the default value of the element type. -/
theorem from_initializer_list_shorter_witness :
    ([1, 2, 3].length ≤ 5) ∧
    (from_initializer_list 5 ([1, 2, 3] : List Int)).slots = [1, 2, 3, 0, 0] :=
  ⟨by decide,
    (@from_initializer_list_shorter Int 5 _ [1, 2, 3] (by decide)).2.2⟩

end array

/-! ## Iterators -/

namespace iterator_impl

variable {T : Type} {ARRAY_SIZE : Nat} {IS_REVERSE : Bool}

theorem operator_ne_mk (p q : Int) :
    operator_ne (⟨p⟩ : iterator_impl IS_REVERSE) ⟨q⟩ = !(p == q) := rfl

theorem operator_preinc_forward (p : Int) :
    (operator_preinc (⟨p⟩ : iterator_impl false)).2 = ⟨p + 1⟩ := rfl

theorem operator_deref_nat (a : array T ARRAY_SIZE) (k : Nat) :
    operator_deref (⟨(k : Int)⟩ : iterator_impl IS_REVERSE) a = a.operator_index k := by
  simp [operator_deref]

/-- A forward walk from position `k` up to `ARRAY_SIZE` visits the slots from `k` on. -/
theorem traverse_forward_from (a : array T ARRAY_SIZE) :
    ∀ (fuel k : Nat), k ≤ ARRAY_SIZE → ARRAY_SIZE - k ≤ fuel →
      traverse a fuel (⟨(k : Int)⟩ : iterator_impl false) ⟨(ARRAY_SIZE : Int)⟩ =
        some (a.slots.drop k) := by
  intro fuel
  induction fuel with
  | zero =>
    intro k hk hfuel
    have hkN : k = ARRAY_SIZE := by omega
    subst hkN
    simp [traverse, operator_ne_mk, List.drop_eq_nil_of_le, array.slots_length]
  | succ fuel ih =>
    intro k hk hfuel
    rcases Nat.eq_or_lt_of_le hk with hkN | hlt
    · subst hkN
      simp [traverse, operator_ne_mk, List.drop_eq_nil_of_le, array.slots_length]
    · have hne : operator_ne (⟨(k : Int)⟩ : iterator_impl false) ⟨(ARRAY_SIZE : Int)⟩ = true := by
        simp [operator_ne_mk]; omega
      have hlen : k < a.slots.length := by rw [array.slots_length]; exact hlt
      have hget : a.slots[k] = a.data_ptr_ ⟨k, hlt⟩ := by
        have h1 := array.slots_getElem? a k
        rw [List.getElem?_eq_getElem hlen, array.operator_index_of_lt a ⟨k, hlt⟩] at h1
        exact Option.some.inj h1
      have hnext := ih (k + 1) hlt (by omega)
      rw [Nat.cast_succ] at hnext
      rw [traverse, if_pos hne, operator_deref_nat, array.operator_index_of_lt a ⟨k, hlt⟩,
        operator_preinc_forward, hnext, List.drop_eq_getElem_cons hlen, hget]
      rfl

/-- A forward walk that starts at a position at or after the first slot never compares
equal to position `-1`: it runs off the storage or out of iterations. -/
theorem traverse_to_before_first (a : array T ARRAY_SIZE) :
    ∀ (fuel k : Nat),
      traverse a fuel (⟨(k : Int)⟩ : iterator_impl false) ⟨-1⟩ = none := by
  intro fuel
  induction fuel with
  | zero =>
    intro k
    have hne : operator_ne (⟨(k : Int)⟩ : iterator_impl false) ⟨-1⟩ = true := by
      simp [operator_ne_mk]
    rw [traverse, if_pos hne]
  | succ fuel ih =>
    intro k
    have hne : operator_ne (⟨(k : Int)⟩ : iterator_impl false) ⟨-1⟩ = true := by
      simp [operator_ne_mk]
    have hnext := ih (k + 1)
    rw [Nat.cast_succ] at hnext
    rw [traverse, if_pos hne, operator_preinc_forward, hnext]
    cases operator_deref (⟨(k : Int)⟩ : iterator_impl false) a <;> rfl

theorem preinc_times_eq (n : Nat) (it : iterator_impl IS_REVERSE) :
    preinc_times n it = operator_plus it (n : Int) := by
  induction n with
  | zero => cases IS_REVERSE <;> simp [preinc_times, operator_plus]
  | succ n ih =>
    have hstep : preinc_times (n + 1) it = (operator_preinc (preinc_times n it)).2 := by
      simp only [preinc_times]
      exact Function.iterate_succ_apply' _ _ _
    rw [hstep, ih]
    cases IS_REVERSE <;> simp [operator_preinc, operator_plus] <;> omega

/-- C4: a walk that starts at `begin()` and pre-increments until the iterator compares
equal to `end()` finishes, visits exactly `ARRAY_SIZE` elements, and the `k`-th element
visited is the slot `a[k]`. -/
theorem traverse_begin_end (a : array T ARRAY_SIZE) (fuel : Nat) (hfuel : ARRAY_SIZE ≤ fuel) :
    ∃ visited : List T,
      traverse a fuel a.begin a.end_ = some visited ∧
      visited.length = ARRAY_SIZE ∧
      ∀ k : Fin ARRAY_SIZE, visited[k.val]? = some (a.data_ptr_ k) := by
  refine ⟨a.slots, ?_, array.slots_length a, ?_⟩
  · have h := traverse_forward_from a fuel 0 (Nat.zero_le _) (by omega)
    rw [List.drop_zero] at h
    exact h
  · intro k
    rw [array.slots_getElem?, array.operator_index_of_lt]

/-- The example of C4: the array of size 5 built from 1, 2, 3 is walked as
1, 2, 3, 0, 0. -/
theorem traverse_begin_end_witness :
    (5 ≤ 5) ∧
    ∃ visited : List Int,
      traverse (array.from_initializer_list 5 ([1, 2, 3] : List Int)) 5
        (array.from_initializer_list 5 ([1, 2, 3] : List Int)).begin
        (array.from_initializer_list 5 ([1, 2, 3] : List Int)).end_ = some visited ∧
      visited.length = 5 ∧
      ∀ k : Fin 5, visited[k.val]? =
        some ((array.from_initializer_list 5 ([1, 2, 3] : List Int)).data_ptr_ k) :=
  ⟨by decide, traverse_begin_end (array.from_initializer_list 5 ([1, 2, 3] : List Int)) 5
    (by decide)⟩

/-- C5, evaluated on the array 1, 2, 3: `cbegin()` is at position 0 like `begin()`, but
`cend()` is at position -1 while `end()` is at position 3; the two do not compare equal,
and the walk from `cbegin()` to `cend()` yields no result, for any bound on its
iterations. -/
theorem cend_is_before_first :
    (array.from_initializer_list 3 ([1, 2, 3] : List Int)).cbegin =
      (array.from_initializer_list 3 ([1, 2, 3] : List Int)).begin ∧
    (array.from_initializer_list 3 ([1, 2, 3] : List Int)).cend.ptr_ = -1 ∧
    (array.from_initializer_list 3 ([1, 2, 3] : List Int)).end_.ptr_ = 3 ∧
    operator_eq (array.from_initializer_list 3 ([1, 2, 3] : List Int)).cend
      (array.from_initializer_list 3 ([1, 2, 3] : List Int)).end_ = false ∧
    ∀ fuel : Nat,
      traverse (array.from_initializer_list 3 ([1, 2, 3] : List Int)) fuel
        (array.from_initializer_list 3 ([1, 2, 3] : List Int)).cbegin
        (array.from_initializer_list 3 ([1, 2, 3] : List Int)).cend = none :=
  ⟨rfl, rfl, rfl, by decide, fun fuel =>
    traverse_to_before_first (array.from_initializer_list 3 ([1, 2, 3] : List Int)) fuel 0⟩

/-- C6, evaluated on a reverse iterator at storage position 2: `it++` returns the
iterator at position 2 but leaves `it` at position 3, whereas `++it` leaves it at
position 1. On every reverse iterator `it++` moves the storage position by +1, and on
every non-reverse iterator it agrees with `++it`. -/
theorem operator_postinc_reverse_moves_back :
    operator_postinc (⟨2⟩ : iterator_impl true) = (⟨2⟩, ⟨3⟩) ∧
    (operator_preinc (⟨2⟩ : iterator_impl true)).2 = ⟨1⟩ ∧
    (∀ p : Int, operator_postinc (⟨p⟩ : iterator_impl true) = (⟨p⟩, ⟨p + 1⟩)) ∧
    (∀ p : Int, operator_postinc (⟨p⟩ : iterator_impl false) =
      (⟨p⟩, (operator_preinc (⟨p⟩ : iterator_impl false)).2)) :=
  ⟨by decide, by decide, fun _ => rfl, fun _ => rfl⟩

/-- C7: the pre-increment `++it` of an iterator at storage position `p` leaves it at
`p + 1` when the iterator is non-reverse and at `p - 1` when it is reverse, and the
value it returns is the iterator at that new position. -/
theorem operator_preinc_position (it : iterator_impl IS_REVERSE) :
    (operator_preinc it).2.ptr_ = (if IS_REVERSE then it.ptr_ - 1 else it.ptr_ + 1) ∧
    (operator_preinc it).1 = (operator_preinc it).2 := by
  cases IS_REVERSE <;> exact ⟨rfl, rfl⟩

/-- C8, evaluated on a reverse iterator at storage position 2: `it--` returns the
iterator at position 2 but leaves `it` at position 1, whereas `--it` leaves it at
position 3; and `it--` applied after `++it` ends at position 0, not back at 2. On every
reverse iterator `it--` moves the storage position by -1. The pre-decrement does undo
the pre-increment, in both directions. -/
theorem operator_postdec_reverse_moves_forward :
    operator_postdec (⟨2⟩ : iterator_impl true) = (⟨2⟩, ⟨1⟩) ∧
    (operator_predec (⟨2⟩ : iterator_impl true)).2 = ⟨3⟩ ∧
    (operator_postdec (operator_preinc (⟨2⟩ : iterator_impl true)).2).2 = ⟨0⟩ ∧
    (∀ p : Int, operator_postdec (⟨p⟩ : iterator_impl true) = (⟨p⟩, ⟨p - 1⟩)) ∧
    (∀ (r : Bool) (it : iterator_impl r),
      (operator_predec (operator_preinc it).2).2 = it) := by
  refine ⟨by decide, by decide, by decide, fun _ => rfl, ?_⟩
  intro r it
  cases it with
  | mk p => cases r <;> simp [operator_predec, operator_preinc]

/-- C9: for an offset `n >= 0`, `it + n` is the iterator reached from `it` by `n`
pre-increments, at storage position `p + n` for a non-reverse iterator and `p - n` for a
reverse one. (`operator+` is a const member: it is a function of `it`, which it does not
write.) -/
theorem operator_plus_eq_preinc_times (it : iterator_impl IS_REVERSE) (n : Int)
    (hn : 0 ≤ n) :
    operator_plus it n = preinc_times n.toNat it ∧
    (operator_plus it n).ptr_ = (if IS_REVERSE then it.ptr_ - n else it.ptr_ + n) := by
  constructor
  · rw [preinc_times_eq, Int.toNat_of_nonneg hn]
  · cases IS_REVERSE <;> rfl

/-- An instance of C9: three steps from position 4, in reverse, reach position 1. -/
theorem operator_plus_eq_preinc_times_witness :
    ((0 : Int) ≤ 3) ∧
    (operator_plus (⟨4⟩ : iterator_impl true) 3 = preinc_times (3 : Int).toNat ⟨4⟩ ∧
      (operator_plus (⟨4⟩ : iterator_impl true) 3).ptr_ = (if true then 4 - 3 else 4 + 3)) :=
  ⟨by decide, operator_plus_eq_preinc_times (⟨4⟩ : iterator_impl true) 3 (by decide)⟩

/-- C10, evaluated on a reverse iterator at storage position 2 and the offset 1: the
difference `(it + 1) - it` is -1, not 1. On every reverse iterator `(it + n) - it` is
`-n`; on every non-reverse iterator it is `n`. -/
theorem operator_tilde_reverse_negated :
    operator_tilde (operator_plus (⟨2⟩ : iterator_impl true) 1) ⟨2⟩ = -1 ∧
    (∀ (it : iterator_impl true) (n : Int), operator_tilde (operator_plus it n) it = -n) ∧
    (∀ (it : iterator_impl false) (n : Int), operator_tilde (operator_plus it n) it = n) := by
  refine ⟨by decide, ?_, ?_⟩
  · intro it n; simp [operator_tilde, operator_plus]
  · intro it n; simp [operator_tilde, operator_plus]

end iterator_impl

/-! ## Whole-array operations -/

namespace array

variable {T : Type} {ARRAY_SIZE : Nat}

theorem store_of_lt (data : Fin ARRAY_SIZE → T) (i : Fin ARRAY_SIZE) (value : T) :
    store data i.val value = some (Function.update data i value) := by
  simp [store]

/-- Slot `j` after the fill loop was entered at `i` with the iterations left that reach
`ARRAY_SIZE`: the fill value from `i` on, the old content below. -/
theorem fill_loop_apply (value : T) :
    ∀ (fuel i : Nat) (data : Fin ARRAY_SIZE → T), i + fuel = ARRAY_SIZE →
      ∀ j : Fin ARRAY_SIZE,
        fill_loop value fuel i data j = if i ≤ j.val then value else data j := by
  intro fuel
  induction fuel with
  | zero =>
    intro i data hi j
    have hj : ¬ i ≤ j.val := by have := j.isLt; omega
    simp [fill_loop, hj]
  | succ fuel ih =>
    intro i data hi j
    have hlt : i < ARRAY_SIZE := by omega
    rw [fill_loop, dif_pos hlt, ih (i + 1) _ (by omega) j]
    by_cases h1 : i + 1 ≤ j.val
    · have hne : j ≠ ⟨i, hlt⟩ := by
        intro h; rw [h] at h1; simp at h1
      rw [if_pos h1, if_pos (by omega)]
    · rw [if_neg h1]
      by_cases h2 : i ≤ j.val
      · have hj : j = ⟨i, hlt⟩ := Fin.ext (by simp; omega)
        rw [if_pos h2, hj]
        simp
      · have hne : j ≠ ⟨i, hlt⟩ := by
          intro h; rw [h] at h2; simp at h2
        rw [if_neg h2, Function.update_noteq hne]

/-- The default-construction loop stores the default value exactly where the fill loop
stores its argument. -/
theorem default_loop_eq_fill_loop [Inhabited T] :
    ∀ (fuel i : Nat) (data : Fin ARRAY_SIZE → T),
      default_loop fuel i data = fill_loop default fuel i data := by
  intro fuel
  induction fuel with
  | zero => intro i data; rfl
  | succ fuel ih =>
    intro i data
    rw [default_loop, fill_loop]
    by_cases hlt : i < ARRAY_SIZE
    · rw [dif_pos hlt, dif_pos hlt, ih]
    · rw [dif_neg hlt, dif_neg hlt]

theorem fill_apply (a : array T ARRAY_SIZE) (value : T) (j : Fin ARRAY_SIZE) :
    (a.fill value).data_ptr_ j = value := by
  have h := fill_loop_apply value ARRAY_SIZE 0 a.data_ptr_ (Nat.zero_add _) j
  rw [if_pos (Nat.zero_le _)] at h
  exact h

/-- C14: a default-constructed array has `size() == ARRAY_SIZE` and holds the default
value of `T` in every slot, whether or not `T` is trivially copyable. -/
theorem default_constructor_slots [Inhabited T] (ARRAY_SIZE : Nat)
    (is_trivially_copyable : Bool) :
    (default_constructor ARRAY_SIZE is_trivially_copyable : array T ARRAY_SIZE).size
        = ARRAY_SIZE ∧
      (∀ i : Fin ARRAY_SIZE,
        (default_constructor ARRAY_SIZE is_trivially_copyable : array T ARRAY_SIZE).data_ptr_ i
          = default) ∧
      (default_constructor ARRAY_SIZE is_trivially_copyable : array T ARRAY_SIZE).slots
        = List.replicate ARRAY_SIZE default := by
  have hslot : ∀ i : Fin ARRAY_SIZE,
      (default_constructor ARRAY_SIZE is_trivially_copyable : array T ARRAY_SIZE).data_ptr_ i
        = default := by
    intro i
    cases is_trivially_copyable
    · simp only [default_constructor, Bool.not_false, if_true]
      rw [default_loop_eq_fill_loop,
        fill_loop_apply default ARRAY_SIZE 0 _ (Nat.zero_add _) i, if_pos (Nat.zero_le _)]
    · rfl
  refine ⟨rfl, hslot, ?_⟩
  apply List.ext_getElem?
  intro n
  rw [slots_getElem?, List.getElem?_replicate]
  by_cases hn : n < ARRAY_SIZE
  · rw [if_pos hn, operator_index_of_lt _ ⟨n, hn⟩, hslot]
  · rw [if_neg hn, operator_index_of_ge _ _ (Nat.le_of_not_lt hn)]

/-- C15: after `a.fill(v)` every slot of the array equals `v`, whatever it held before,
and the size is still `ARRAY_SIZE`. -/
theorem fill_all_slots (a : array T ARRAY_SIZE) (v : T) :
    (∀ i : Fin ARRAY_SIZE, (a.fill v).data_ptr_ i = v) ∧
      (∀ i : Nat, i < ARRAY_SIZE → (a.fill v).operator_index i = some v) ∧
      (a.fill v).slots = List.replicate ARRAY_SIZE v ∧
      (a.fill v).size = ARRAY_SIZE := by
  refine ⟨fill_apply a v, ?_, ?_, rfl⟩
  · intro i hi
    rw [operator_index_of_lt _ ⟨i, hi⟩, fill_apply]
  · apply List.ext_getElem?
    intro n
    rw [slots_getElem?, List.getElem?_replicate]
    by_cases hn : n < ARRAY_SIZE
    · rw [if_pos hn, operator_index_of_lt _ ⟨n, hn⟩, fill_apply]
    · rw [if_neg hn, operator_index_of_ge _ _ (Nat.le_of_not_lt hn)]

/-- C16: `fill` is idempotent: filling twice with the same value leaves the array that
filling once leaves. -/
theorem fill_fill (a : array T ARRAY_SIZE) (v : T) :
    (a.fill v).fill v = a.fill v ∧
      ∀ i : Fin ARRAY_SIZE, ((a.fill v).fill v).data_ptr_ i = (a.fill v).data_ptr_ i := by
  have hslot : ∀ i : Fin ARRAY_SIZE,
      ((a.fill v).fill v).data_ptr_ i = (a.fill v).data_ptr_ i := by
    intro i
    rw [fill_apply, fill_apply]
  refine ⟨?_, hslot⟩
  have hfun : ((a.fill v).fill v).data_ptr_ = (a.fill v).data_ptr_ := funext hslot
  cases hab : (a.fill v).fill v with
  | mk d1 =>
    cases hb : a.fill v with
    | mk d2 =>
      rw [hab, hb] at hfun
      exact congrArg array.mk hfun

/-- C19: for two arrays of the same element type and size, `a != b` holds exactly when
`a == b` does not. -/
theorem operator_ne_iff_not_operator_eq [DecidableEq T] (a b : array T ARRAY_SIZE) :
    operator_ne a b = true ↔ ¬ (operator_eq a b = true) := by
  simp [operator_ne]

theorem forward_ne_of_lt (k : Nat) (hlt : k < ARRAY_SIZE) :
    iterator_impl.operator_ne (⟨(k : Int)⟩ : iterator_impl false) ⟨(ARRAY_SIZE : Int)⟩
      = true := by
  simp [iterator_impl.operator_ne_mk]; omega

theorem forward_ne_self (p : Int) :
    iterator_impl.operator_ne (⟨p⟩ : iterator_impl false) ⟨p⟩ = false := by
  simp [iterator_impl.operator_ne_mk]

/-- The copy loop entered at position `k` with counter `k` finishes and leaves the slots
of `other` from `k` on, and the old content below. -/
theorem copy_loop_from (other : array T ARRAY_SIZE) :
    ∀ (fuel k : Nat) (data : Fin ARRAY_SIZE → T), k ≤ ARRAY_SIZE → ARRAY_SIZE - k ≤ fuel →
      copy_loop other fuel ⟨(k : Int)⟩ ⟨(ARRAY_SIZE : Int)⟩ k data =
        some (fun j => if k ≤ j.val then other.data_ptr_ j else data j) := by
  have hdone : ∀ data : Fin ARRAY_SIZE → T,
      (fun j : Fin ARRAY_SIZE => if ARRAY_SIZE ≤ j.val then other.data_ptr_ j else data j)
        = data := by
    intro data
    funext j
    rw [if_neg (by have := j.isLt; omega)]
  intro fuel
  induction fuel with
  | zero =>
    intro k data hk hfuel
    have hkN : k = ARRAY_SIZE := by omega
    subst hkN
    rw [copy_loop, forward_ne_self, hdone]
    rfl
  | succ fuel ih =>
    intro k data hk hfuel
    rcases Nat.eq_or_lt_of_le hk with hkN | hlt
    · subst hkN
      rw [copy_loop, forward_ne_self, hdone]
      rfl
    · have hnext := ih (k + 1) (Function.update data ⟨k, hlt⟩ (other.data_ptr_ ⟨k, hlt⟩))
        hlt (by omega)
      rw [Nat.cast_succ] at hnext
      have hderef : iterator_impl.operator_deref (⟨(k : Int)⟩ : iterator_impl false) other
          = some (other.data_ptr_ ⟨k, hlt⟩) := by
        rw [iterator_impl.operator_deref_nat]
        exact operator_index_of_lt other ⟨k, hlt⟩
      have hstore := store_of_lt data ⟨k, hlt⟩ (other.data_ptr_ ⟨k, hlt⟩)
      simp only at hstore
      rw [copy_loop, forward_ne_of_lt k hlt, if_pos rfl, hderef]
      simp only [hstore, iterator_impl.operator_preinc_forward]
      rw [hnext]
      congr 1
      funext j
      by_cases h1 : k + 1 ≤ j.val
      · rw [if_pos h1, if_pos (by omega)]
      · rw [if_neg h1]
        by_cases h2 : k ≤ j.val
        · have hj : j = ⟨k, hlt⟩ := Fin.ext (by simp; omega)
          rw [if_pos h2, hj]
          simp
        · have hne : j ≠ ⟨k, hlt⟩ := by
            intro h; rw [h] at h2; simp at h2
          rw [if_neg h2, Function.update_noteq hne]

theorem copy_constructor_eq (other : array T ARRAY_SIZE) (storage : Fin ARRAY_SIZE → T) :
    copy_constructor other storage = some other := by
  have h := copy_loop_from other ARRAY_SIZE 0 storage (Nat.zero_le _) (by omega)
  have hfun : (fun j : Fin ARRAY_SIZE => if 0 ≤ j.val then other.data_ptr_ j else storage j)
      = other.data_ptr_ := by
    funext j
    rw [if_pos (Nat.zero_le _)]
  rw [hfun] at h
  simp only [copy_constructor, begin, end_]
  rw [show ((0 : Int)) = ((0 : Nat) : Int) from rfl, h]
  rfl

/-- The move loop entered at position `k` with counter `k` finishes; it has handed over
the slots of the source from `k` on, which are left in their moved-from state, and has
touched nothing below `k`. -/
theorem move_loop_from (moved_from : T → T) :
    ∀ (fuel k : Nat) (source data : Fin ARRAY_SIZE → T), k ≤ ARRAY_SIZE →
      ARRAY_SIZE - k ≤ fuel →
      move_loop moved_from fuel ⟨(k : Int)⟩ ⟨(ARRAY_SIZE : Int)⟩ k source data =
        some (fun j => if k ≤ j.val then moved_from (source j) else source j,
          fun j => if k ≤ j.val then source j else data j) := by
  have hdone : ∀ source data : Fin ARRAY_SIZE → T,
      ((fun j : Fin ARRAY_SIZE => if ARRAY_SIZE ≤ j.val then moved_from (source j) else source j,
        fun j : Fin ARRAY_SIZE => if ARRAY_SIZE ≤ j.val then source j else data j) :
          (Fin ARRAY_SIZE → T) × (Fin ARRAY_SIZE → T)) = (source, data) := by
    intro source data
    have h1 : (fun j : Fin ARRAY_SIZE =>
        if ARRAY_SIZE ≤ j.val then moved_from (source j) else source j) = source := by
      funext j; rw [if_neg (by have := j.isLt; omega)]
    have h2 : (fun j : Fin ARRAY_SIZE =>
        if ARRAY_SIZE ≤ j.val then source j else data j) = data := by
      funext j; rw [if_neg (by have := j.isLt; omega)]
    rw [h1, h2]
  intro fuel
  induction fuel with
  | zero =>
    intro k source data hk hfuel
    have hkN : k = ARRAY_SIZE := by omega
    subst hkN
    rw [move_loop, forward_ne_self, hdone]
    rfl
  | succ fuel ih =>
    intro k source data hk hfuel
    rcases Nat.eq_or_lt_of_le hk with hkN | hlt
    · subst hkN
      rw [move_loop, forward_ne_self, hdone]
      rfl
    · have hnext := ih (k + 1)
        (Function.update source ⟨k, hlt⟩ (moved_from (source ⟨k, hlt⟩)))
        (Function.update data ⟨k, hlt⟩ (source ⟨k, hlt⟩)) hlt (by omega)
      rw [Nat.cast_succ] at hnext
      have hderef : iterator_impl.operator_deref (⟨(k : Int)⟩ : iterator_impl false)
          (array.mk source) = some (source ⟨k, hlt⟩) := by
        rw [iterator_impl.operator_deref_nat]
        exact operator_index_of_lt (array.mk source) ⟨k, hlt⟩
      have hstore1 := store_of_lt data ⟨k, hlt⟩ (source ⟨k, hlt⟩)
      have hstore2 := store_of_lt source ⟨k, hlt⟩ (moved_from (source ⟨k, hlt⟩))
      simp only at hstore1 hstore2
      rw [move_loop, forward_ne_of_lt k hlt, if_pos rfl, hderef]
      simp only [Int.toNat_ofNat, hstore1, hstore2, iterator_impl.operator_preinc_forward]
      rw [hnext]
      congr 2
      · funext j
        by_cases h1 : k + 1 ≤ j.val
        · have hne : j ≠ ⟨k, hlt⟩ := by
            intro h; rw [h] at h1; simp at h1
          rw [if_pos h1, if_pos (by omega), Function.update_noteq hne]
        · rw [if_neg h1]
          by_cases h2 : k ≤ j.val
          · have hj : j = ⟨k, hlt⟩ := Fin.ext (by simp; omega)
            rw [if_pos h2, hj]
            simp
          · have hne : j ≠ ⟨k, hlt⟩ := by
              intro h; rw [h] at h2; simp at h2
            rw [if_neg h2, Function.update_noteq hne]
      · funext j
        by_cases h1 : k + 1 ≤ j.val
        · have hne : j ≠ ⟨k, hlt⟩ := by
            intro h; rw [h] at h1; simp at h1
          rw [if_pos h1, if_pos (by omega), Function.update_noteq hne]
        · rw [if_neg h1]
          by_cases h2 : k ≤ j.val
          · have hj : j = ⟨k, hlt⟩ := Fin.ext (by simp; omega)
            rw [if_pos h2, hj]
            simp
          · have hne : j ≠ ⟨k, hlt⟩ := by
              intro h; rw [h] at h2; simp at h2
            rw [if_neg h2, Function.update_noteq hne]

/-- C12: constructing `b` as a copy of `a` succeeds and gives an array with `a == b`,
slot for slot equal to `a`; a later write `b[i] = v` changes slot `i` of `b` alone, the
slots of `a` being what they were: the other slots of `b` still equal those of `a`, and
`a` compares equal to the modified `b` only when `a[i]` already was `v`. -/
theorem copy_constructor_then_write [DecidableEq T] (a : array T ARRAY_SIZE)
    (storage : Fin ARRAY_SIZE → T) :
    ∃ b : array T ARRAY_SIZE,
      copy_constructor a storage = some b ∧
      operator_eq a b = true ∧
      (∀ i : Fin ARRAY_SIZE, b.data_ptr_ i = a.data_ptr_ i) ∧
      ∀ (i : Fin ARRAY_SIZE) (v : T), ∃ b1 : array T ARRAY_SIZE,
        assign_index b i.val v = some b1 ∧
        b1.data_ptr_ i = v ∧
        (∀ j : Fin ARRAY_SIZE, j ≠ i → b1.data_ptr_ j = a.data_ptr_ j) ∧
        (operator_eq a b1 = true ↔ a.data_ptr_ i = v) := by
  have heq : ∀ x y : array T ARRAY_SIZE,
      operator_eq x y = true ↔ ∀ j : Fin ARRAY_SIZE, x.data_ptr_ j = y.data_ptr_ j := by
    intro x y
    have hloop := eq_loop_iff x y ARRAY_SIZE 0 (Nat.zero_add _)
    have hdef : operator_eq x y = eq_loop x y ARRAY_SIZE 0 := by
      simp [operator_eq, size]
    rw [hdef, hloop]
    exact ⟨fun h j => h j (Nat.zero_le _), fun h j _ => h j⟩
  refine ⟨a, copy_constructor_eq a storage, (heq a a).mpr (fun _ => rfl), fun _ => rfl, ?_⟩
  intro i v
  refine ⟨⟨Function.update a.data_ptr_ i v⟩, ?_, ?_, ?_, ?_⟩
  · simp [assign_index, store]
  · simp
  · intro j hj
    simp [Function.update_noteq hj]
  · rw [heq]
    constructor
    · intro h
      have hi := h i
      simp at hi
      exact hi
    · intro h j
      by_cases hj : j = i
      · subst hj; simp [h]
      · simp [Function.update_noteq hj]

/-- C13: move-constructing `b` from `a` succeeds, and every slot `b[i]` holds the value
that `a[i]` held before the move; `a` is left with its slots in the moved-from state. -/
theorem move_constructor_slots (moved_from : T → T) (a : array T ARRAY_SIZE)
    (storage : Fin ARRAY_SIZE → T) :
    ∃ b a1 : array T ARRAY_SIZE,
      move_constructor moved_from a storage = some (b, a1) ∧
      (∀ i : Fin ARRAY_SIZE, b.data_ptr_ i = a.data_ptr_ i) ∧
      b.slots = a.slots ∧
      (∀ i : Fin ARRAY_SIZE, a1.data_ptr_ i = moved_from (a.data_ptr_ i)) := by
  have h := move_loop_from moved_from ARRAY_SIZE 0 a.data_ptr_ storage (Nat.zero_le _)
    (by omega)
  refine ⟨⟨fun j => if 0 ≤ j.val then a.data_ptr_ j else storage j⟩,
    ⟨fun j => if 0 ≤ j.val then moved_from (a.data_ptr_ j) else a.data_ptr_ j⟩, ?_, ?_, ?_, ?_⟩
  · simp only [move_constructor, begin, end_]
    rw [show ((0 : Int)) = ((0 : Nat) : Int) from rfl, h]
    rfl
  · intro i; simp
  · simp [slots]
  · intro i; simp

end array

/-! ## Reverse walks and iterator arithmetic on the accessors -/

namespace iterator_impl

variable {T : Type} {ARRAY_SIZE : Nat}

theorem operator_preinc_reverse (p : Int) :
    (operator_preinc (⟨p⟩ : iterator_impl true)).2 = ⟨p - 1⟩ := rfl

/-- A reverse walk from the slot below `k` down to the position before the first slot
visits the first `k` slots, last one first. -/
theorem traverse_reverse_from (a : array T ARRAY_SIZE) :
    ∀ (fuel k : Nat), k ≤ ARRAY_SIZE → k ≤ fuel →
      traverse a fuel (⟨(k : Int) - 1⟩ : iterator_impl true) ⟨-1⟩ =
        some (a.slots.take k).reverse := by
  intro fuel
  induction fuel with
  | zero =>
    intro k hk hfuel
    have hk0 : k = 0 := by omega
    subst hk0
    simp [traverse, operator_ne_mk]
  | succ fuel ih =>
    intro k hk hfuel
    cases k with
    | zero => simp [traverse, operator_ne_mk]
    | succ j =>
      have hlt : j < ARRAY_SIZE := hk
      have hpos : ((j + 1 : Nat) : Int) - 1 = (j : Int) := by
        rw [Nat.cast_succ]; omega
      have hne : operator_ne (⟨(j : Int)⟩ : iterator_impl true) ⟨-1⟩ = true := by
        simp [operator_ne_mk]
      have hlen : j < a.slots.length := by rw [array.slots_length]; exact hlt
      have hget : a.slots[j]? = some (a.data_ptr_ ⟨j, hlt⟩) := by
        rw [array.slots_getElem?]
        exact array.operator_index_of_lt a ⟨j, hlt⟩
      have hnext := ih j (Nat.le_of_lt hlt) (by omega)
      rw [hpos, traverse, if_pos hne, operator_deref_nat,
        array.operator_index_of_lt a ⟨j, hlt⟩, operator_preinc_reverse, hnext,
        List.take_succ, hget]
      simp

/-- C11: a reverse iterator that starts on the last slot and is pre-incremented until it
compares equal to the position before the first slot finishes, visits exactly
`ARRAY_SIZE` elements, and the `k`-th element visited is the slot
`a[ARRAY_SIZE - 1 - k]`: the slots in reverse index order. -/
theorem traverse_rbegin_rend (a : array T ARRAY_SIZE) (fuel : Nat)
    (hfuel : ARRAY_SIZE ≤ fuel) :
    ∃ visited : List T,
      traverse a fuel a.rbegin a.rend = some visited ∧
      visited.length = ARRAY_SIZE ∧
      visited = a.slots.reverse ∧
      ∀ k : Nat, k < ARRAY_SIZE → visited[k]? = a.operator_index (ARRAY_SIZE - 1 - k) := by
  refine ⟨a.slots.reverse, ?_, ?_, rfl, ?_⟩
  · have h := traverse_reverse_from a fuel ARRAY_SIZE (Nat.le_refl _) hfuel
    rw [List.take_of_length_le (Nat.le_of_eq (array.slots_length a))] at h
    exact h
  · rw [List.length_reverse, array.slots_length]
  · intro k hk
    rw [List.getElem?_reverse (by rw [array.slots_length]; exact hk), array.slots_length,
      array.slots_getElem?]

/-- The example of C11: the array of size 5 built from 1, 2, 3 is walked in reverse as
0, 0, 3, 2, 1. -/
theorem traverse_rbegin_rend_witness :
    (5 ≤ 5) ∧
    ∃ visited : List Int,
      traverse (array.from_initializer_list 5 ([1, 2, 3] : List Int)) 5
        (array.from_initializer_list 5 ([1, 2, 3] : List Int)).rbegin
        (array.from_initializer_list 5 ([1, 2, 3] : List Int)).rend = some visited ∧
      visited.length = 5 ∧
      visited = (array.from_initializer_list 5 ([1, 2, 3] : List Int)).slots.reverse ∧
      ∀ k : Nat, k < 5 → visited[k]? =
        (array.from_initializer_list 5 ([1, 2, 3] : List Int)).operator_index (5 - 1 - k) :=
  ⟨by decide, traverse_rbegin_rend (array.from_initializer_list 5 ([1, 2, 3] : List Int)) 5
    (by decide)⟩

/-- C20: on every array, `begin() + ARRAY_SIZE` compares equal to `end()`, the iterator
difference of `end()` and `begin()` is `ARRAY_SIZE`, `begin() <= end()` holds, and
`begin() < end()` holds exactly when `ARRAY_SIZE > 0`. -/
theorem begin_end_arithmetic (a : array T ARRAY_SIZE) :
    operator_eq (operator_plus a.begin (ARRAY_SIZE : Int)) a.end_ = true ∧
    operator_tilde a.end_ a.begin = (ARRAY_SIZE : Int) ∧
    operator_le a.begin a.end_ = true ∧
    (operator_lt a.begin a.end_ = true ↔ 0 < ARRAY_SIZE) := by
  refine ⟨?_, ?_, ?_, ?_⟩
  · simp [operator_eq, operator_plus, array.begin, array.end_]
  · simp [operator_tilde, array.begin, array.end_]
  · simp [operator_le, array.begin, array.end_]
  · simp [operator_lt, array.begin, array.end_]

end iterator_impl

/-! ## Allocator sizes -/

namespace Allocator

/-- C17 as stated fails: with a 64-bit `size_type` and `sizeof(T) = 4`, the count
`2 ^ 62` is a value of `size_type`, and `allocate` requests 0 bytes, not the
`2 ^ 62 * 4` of the exact product. -/
theorem allocate_bytes_wraps :
    2 ^ 62 < 2 ^ 64 ∧
    allocate_bytes 64 4 (2 ^ 62) = 0 ∧
    allocate_bytes 64 4 (2 ^ 62) ≠ 2 ^ 62 * 4 ∧
    allocate (fun bytes => some bytes) 64 4 (2 ^ 62) = some 0 := by
  refine ⟨by norm_num, by norm_num [allocate_bytes], by norm_num [allocate_bytes], ?_⟩
  norm_num [allocate, allocate_bytes]

/-- C17, amended: whenever the exact product `count * sizeof(T)` fits the size type,
`allocate(count)` requests a block of exactly that many bytes. -/
theorem allocate_bytes_exact {pointer : Type} (operator_new : Nat → Option pointer)
    (w sizeof_T size : Nat) (hfit : size * sizeof_T < 2 ^ w) :
    allocate_bytes w sizeof_T size = size * sizeof_T ∧
    allocate operator_new w sizeof_T size = operator_new (size * sizeof_T) := by
  have h : allocate_bytes w sizeof_T size = size * sizeof_T := Nat.mod_eq_of_lt hfit
  exact ⟨h, by rw [allocate, h]⟩

/-- An instance of the amended C17: five elements of four bytes are twenty bytes. -/
theorem allocate_bytes_exact_witness :
    5 * 4 < 2 ^ 64 ∧
    (allocate_bytes 64 4 5 = 5 * 4 ∧
      allocate (fun bytes => some bytes) 64 4 5 = (fun bytes => some bytes) (5 * 4)) :=
  ⟨by norm_num, allocate_bytes_exact (fun bytes => some bytes) 64 4 5 (by norm_num)⟩

/-- C18: for `sizeof(T) >= 1`, `max_size()` is the maximum of the size type divided by
`sizeof(T)`; `max_size() * sizeof(T)` does not exceed that maximum, while
`(max_size() + 1) * sizeof(T)` does. -/
theorem max_size_bounds (w sizeof_T : Nat) (hsize : 1 ≤ sizeof_T) :
    max_size w sizeof_T = size_type_max w / sizeof_T ∧
    max_size w sizeof_T * sizeof_T ≤ size_type_max w ∧
    size_type_max w < (max_size w sizeof_T + 1) * sizeof_T := by
  refine ⟨rfl, Nat.div_mul_le_self _ _, ?_⟩
  have h := Nat.lt_mul_div_succ (size_type_max w) hsize
  rw [Nat.mul_comm] at h
  exact h

/-- An instance of C18: a 64-bit size type and four-byte elements. -/
theorem max_size_bounds_witness :
    1 ≤ 4 ∧
    (max_size 64 4 = size_type_max 64 / 4 ∧
      max_size 64 4 * 4 ≤ size_type_max 64 ∧
      size_type_max 64 < (max_size 64 4 + 1) * 4) :=
  ⟨by decide, max_size_bounds 64 4 (by decide)⟩

end Allocator

end cppstl
